import Mathlib

set_option maxRecDepth 40000

/-!
Verification development for the incremental stream demultiplexer of
`src/chat/chat.service.ts` (`getStreamingAIResponse`, lines 345–531).

The TypeScript closures are embedded as pure Lean functions over an explicit
session state.  Strings are `List Char`; JavaScript's `JSON.parse` /
`JSON.stringify` / property access / template-literal conversion are modelled
by a reference JSON value type together with executable functions that follow
the ECMAScript semantics on the fragment of the language the service uses
(objects, arrays, strings, escape sequences, integer/decimal number tokens,
booleans, null; property access on `null`/`undefined` throws, optional
chaining does not).  Caveats that do not affect any claim: number tokens are
kept verbatim rather than re-rendered from a float, JavaScript's larger
Unicode whitespace class for `trim` is restricted to space, tab, LF, CR,
unescaped control characters inside string literals are accepted rather than
rejected, and chunks are modelled at character granularity (the service
decodes each network chunk with `chunk.toString('utf-8')` before appending).
-/

namespace CatolyDemux

/-! ## Characters and raw-buffer primitives -/

/-- Whitespace recognised by the JSON grammar and (restricted, see header)
by `String.prototype.trim`. -/
def isWsChar (c : Char) : Bool :=
  c == ' ' || c == '\t' || c == '\n' || c == '\r'

/-- Drop leading whitespace (used between JSON tokens). -/
def skipWs (s : List Char) : List Char := s.dropWhile isWsChar

/-- Model of `content.trim()`. -/
def trimChars (s : List Char) : List Char :=
  ((s.dropWhile isWsChar).reverse.dropWhile isWsChar).reverse

/-- The pattern `pat` occurs in `s` at offset `i`. -/
def matchesAt (pat s : List Char) (i : Nat) : Prop :=
  (s.drop i).take pat.length = pat

instance instDecMatchesAt (pat s : List Char) (i : Nat) : Decidable (matchesAt pat s i) := by
  unfold matchesAt
  exact inferInstance

/-- Linear scan used to model `String.prototype.indexOf`: first offset `≥ i`
(at most `fuel` candidates) where `pat` occurs. -/
def scanFrom (pat s : List Char) : Nat → Nat → Option Nat
  | _, 0 => none
  | i, fuel + 1 => if matchesAt pat s i then some i else scanFrom pat s (i + 1) fuel

/-- Model of `s.indexOf(pat, start)` for a non-empty pattern: the least offset
`≥ start` where `pat` occurs in `s`, `none` standing for JavaScript's `-1`. -/
def indexOfFrom (pat s : List Char) (start : Nat) : Option Nat :=
  scanFrom pat s start (s.length + 1 - start)

/-! ## Reference JSON values -/

/-- JSON values as produced by `JSON.parse`.  Number tokens are kept verbatim
(see header). -/
inductive Json where
  | null : Json
  | bool (b : Bool) : Json
  | num (tok : List Char) : Json
  | str (s : List Char) : Json
  | arr (elems : List Json) : Json
  | obj (fields : List (List Char × Json)) : Json

/-- Property lookup on a parsed object.  The parser builds objects with
`upsertField`, so keys are unique and the later of two duplicate source keys
has already won, as in JavaScript. -/
def lookupField (fields : List (List Char × Json)) (k : List Char) : Option Json :=
  match fields with
  | [] => none
  | (k', v) :: rest =>
    match lookupField rest k with
    | some r => some r
    | none => if k' = k then some v else none

/-- Object-field assignment as `JSON.parse` performs it: a duplicate key
overwrites the stored value but keeps the first occurrence's position. -/
def upsertField (fields : List (List Char × Json)) (k : List Char) (v : Json) :
    List (List Char × Json) :=
  match fields with
  | [] => [(k, v)]
  | (k', v') :: rest =>
    if k' = k then (k', v) :: rest else (k', v') :: upsertField rest k v

/-- JavaScript property read `v.k` on a value that is neither `null` nor
`undefined`: object fields looked up, every other primitive yields
`undefined` (`none`). -/
def fieldOf (v : Json) (k : List Char) : Option Json :=
  match v with
  | .obj fields => lookupField fields k
  | _ => none

/-- JavaScript property read `base.k` where `base` may be `undefined`
(`none`): accessing a property of `null` or `undefined` throws. -/
def getProp (base : Option Json) (k : List Char) : Except Unit (Option Json) :=
  match base with
  | none => .error ()
  | some .null => .error ()
  | some v => .ok (fieldOf v k)

/-- JavaScript optional chaining `base?.k`: never throws. -/
def optChain (base : Option Json) (k : List Char) : Option Json :=
  match base with
  | none => none
  | some .null => none
  | some v => fieldOf v k

/-- JavaScript strict equality of a possibly-undefined value with a string
literal. -/
def jsStrEq (v : Option Json) (lit : List Char) : Bool :=
  match v with
  | some (.str s) => s == lit
  | _ => false

/-- A JSON number token denotes zero iff its mantissa (everything before a
possible exponent marker) has no non-zero digit. -/
def numTokIsZero (tok : List Char) : Bool :=
  (tok.takeWhile (fun c => !(c == 'e') && !(c == 'E'))).all
    (fun c => c == '0' || c == '.' || c == '-' || c == '+')

/-- JavaScript truthiness of a possibly-undefined parsed value. -/
def truthy (v : Option Json) : Bool :=
  match v with
  | none => false
  | some .null => false
  | some (.bool b) => b
  | some (.num tok) => !(numTokIsZero tok)
  | some (.str s) => !s.isEmpty
  | some (.arr _) => true
  | some (.obj _) => true

/-! ## A reference `JSON.parse` -/

/-- Hexadecimal digit value, for `\uXXXX` escapes (codes: `0`-`9` are
48-57, `a`-`f` are 97-102, `A`-`F` are 65-70). -/
def hexVal (c : Char) : Option Nat :=
  let n := c.toNat
  if 48 ≤ n ∧ n ≤ 57 then some (n - 48)
  else if 97 ≤ n ∧ n ≤ 102 then some (n - 87)
  else if 65 ≤ n ∧ n ≤ 70 then some (n - 55)
  else none

/-- Single-character JSON string escapes: the five control-character escapes
map to their code points, and quote, backslash and slash map to themselves. -/
def escChar (c : Char) : Option Char :=
  match c with
  | 'b' => some (Char.ofNat 8)
  | 't' => some (Char.ofNat 9)
  | 'n' => some (Char.ofNat 10)
  | 'f' => some (Char.ofNat 12)
  | 'r' => some (Char.ofNat 13)
  | other => if other = '"' ∨ other = '\\' ∨ other = '/' then some other else none

/-- Body of a JSON string literal after the opening quote; returns the decoded
content and the input after the closing quote. -/
def parseStringBody : List Char → Option (List Char × List Char)
  | [] => none
  | '"' :: rest => some ([], rest)
  | '\\' :: 'u' :: h1 :: h2 :: h3 :: h4 :: rest =>
    match hexVal h1, hexVal h2, hexVal h3, hexVal h4 with
    | some a, some b, some c, some d =>
      match parseStringBody rest with
      | some (tail, rest') => some (Char.ofNat (((a * 16 + b) * 16 + c) * 16 + d) :: tail, rest')
      | none => none
    | _, _, _, _ => none
  | '\\' :: c :: rest =>
    match escChar c with
    | some ec =>
      match parseStringBody rest with
      | some (tail, rest') => some (ec :: tail, rest')
      | none => none
    | none => none
  | '\\' :: [] => none
  | c :: rest =>
    match parseStringBody rest with
    | some (tail, rest') => some (c :: tail, rest')
    | none => none

/-- Leading run of decimal digits. -/
def digitSpan (s : List Char) : List Char × List Char :=
  (s.takeWhile Char.isDigit, s.dropWhile Char.isDigit)

/-- Fractional part `.[0-9]+`, if present. -/
def parseFracPart (s : List Char) : Option (List Char × List Char) :=
  match s with
  | '.' :: r =>
    let ds := digitSpan r
    if ds.1.isEmpty then none else some ('.' :: ds.1, ds.2)
  | _ => some ([], s)

/-- Exponent part `[eE][+-]?[0-9]+`, if present. -/
def parseExpPart (s : List Char) : Option (List Char × List Char) :=
  match s with
  | c :: r =>
    if c == 'e' || c == 'E' then
      let signed : List Char × List Char :=
        match r with
        | '+' :: t => (['+'], t)
        | '-' :: t => (['-'], t)
        | _ => ([], r)
      let ds := digitSpan signed.2
      if ds.1.isEmpty then none else some (c :: signed.1 ++ ds.1, ds.2)
    else some ([], c :: r)
  | [] => some ([], [])

/-- Integer part of a JSON number: `0`, or a nonzero digit followed by digits
(leading zeros are a syntax error in JSON). -/
def parseIntPart (s : List Char) : Option (List Char × List Char) :=
  match s with
  | '0' :: r =>
    match r with
    | c :: _ => if c.isDigit then none else some (['0'], r)
    | [] => some (['0'], [])
  | c :: r =>
    if c.isDigit then
      let ds := digitSpan r
      some (c :: ds.1, ds.2)
    else none
  | [] => none

/-- A JSON number token `-?int frac? exp?`, kept verbatim. -/
def parseNumberTok (s : List Char) : Option (List Char × List Char) :=
  let signed : List Char × List Char :=
    match s with
    | '-' :: t => (['-'], t)
    | _ => ([], s)
  match parseIntPart signed.2 with
  | none => none
  | some (ip, r1) =>
    match parseFracPart r1 with
    | none => none
    | some (fp, r2) =>
      match parseExpPart r2 with
      | none => none
      | some (ep, r3) => some (signed.1 ++ ip ++ fp ++ ep, r3)

mutual

/-- One JSON value (leading whitespace allowed) plus the remaining input. -/
def parseValue : Nat → List Char → Option (Json × List Char)
  | 0, _ => none
  | fuel + 1, s =>
    match skipWs s with
    | '\x7b' :: rest => parseObjBody fuel rest
    | '[' :: rest => parseArrBody fuel rest
    | '"' :: rest =>
      match parseStringBody rest with
      | some (content, rest') => some (.str content, rest')
      | none => none
    | 't' :: 'r' :: 'u' :: 'e' :: rest => some (.bool true, rest)
    | 'f' :: 'a' :: 'l' :: 's' :: 'e' :: rest => some (.bool false, rest)
    | 'n' :: 'u' :: 'l' :: 'l' :: rest => some (.null, rest)
    | other =>
      match parseNumberTok other with
      | some (tok, rest) => some (.num tok, rest)
      | none => none

/-- Object body after the opening brace. -/
def parseObjBody : Nat → List Char → Option (Json × List Char)
  | 0, _ => none
  | fuel + 1, s =>
    match skipWs s with
    | '\x7d' :: rest => some (.obj [], rest)
    | other => parseMembers fuel other []

/-- Non-empty member list of an object. -/
def parseMembers : Nat → List Char → List (List Char × Json) → Option (Json × List Char)
  | 0, _, _ => none
  | fuel + 1, s, acc =>
    match skipWs s with
    | '"' :: rest =>
      match parseStringBody rest with
      | none => none
      | some (key, rest') =>
        match skipWs rest' with
        | ':' :: rest2 =>
          match parseValue fuel rest2 with
          | none => none
          | some (v, rest3) =>
            match skipWs rest3 with
            | ',' :: rest4 => parseMembers fuel rest4 (upsertField acc key v)
            | '\x7d' :: rest4 => some (.obj (upsertField acc key v), rest4)
            | _ => none
        | _ => none
    | _ => none

/-- Array body after the opening bracket. -/
def parseArrBody : Nat → List Char → Option (Json × List Char)
  | 0, _ => none
  | fuel + 1, s =>
    match skipWs s with
    | ']' :: rest => some (.arr [], rest)
    | other => parseElems fuel other []

/-- Non-empty element list of an array. -/
def parseElems : Nat → List Char → List Json → Option (Json × List Char)
  | 0, _, _ => none
  | fuel + 1, s, acc =>
    match parseValue fuel s with
    | none => none
    | some (v, rest) =>
      match skipWs rest with
      | ',' :: rest2 => parseElems fuel rest2 (acc ++ [v])
      | ']' :: rest2 => some (.arr (acc ++ [v]), rest2)
      | _ => none

end

/-- Model of `JSON.parse`: one value, surrounding whitespace allowed, nothing
else.  The fuel `4 * (length + 1)` dominates the recursion depth, since at
most three nested calls separate consecutive input characters. -/
def parseJson (s : List Char) : Option Json :=
  match parseValue (4 * (s.length + 1)) s with
  | some (v, rest) => if (skipWs rest).isEmpty then some v else none
  | none => none

/-! ## A reference `JSON.stringify` and template-literal conversion -/

/-- Lower-case hexadecimal digit. -/
def hexDigit (n : Nat) : Char :=
  if n < 10 then Char.ofNat ('0'.toNat + n) else Char.ofNat ('a'.toNat + n - 10)

/-- How `JSON.stringify` escapes one character inside a string literal. -/
def escapeJsonChar (c : Char) : List Char :=
  if c == '"' then ['\\', '"']
  else if c == '\\' then ['\\', '\\']
  else if c == '\n' then ['\\', 'n']
  else if c == '\r' then ['\\', 'r']
  else if c == '\t' then ['\\', 't']
  else if c.toNat == 8 then ['\\', 'b']
  else if c.toNat == 12 then ['\\', 'f']
  else if c.toNat < 32 then ['\\', 'u', '0', '0', hexDigit (c.toNat / 16), hexDigit (c.toNat % 16)]
  else [c]

/-- Escape a whole string for `JSON.stringify`. -/
def escapeJsonStr (s : List Char) : List Char := (s.map escapeJsonChar).flatten

mutual

/-- Model of `JSON.stringify` on parsed JSON values. -/
def stringify : Json → List Char
  | .null => "null".data
  | .bool true => "true".data
  | .bool false => "false".data
  | .num tok => tok
  | .str s => '"' :: escapeJsonStr s ++ ['"']
  | .arr xs => '[' :: stringifyElems xs ++ [']']
  | .obj fs => '\x7b' :: stringifyFields fs ++ ['\x7d']

/-- Comma-separated array elements. -/
def stringifyElems : List Json → List Char
  | [] => []
  | [x] => stringify x
  | x :: xs => stringify x ++ ',' :: stringifyElems xs

/-- Comma-separated `"key":value` object members. -/
def stringifyFields : List (List Char × Json) → List Char
  | [] => []
  | [(k, v)] => '"' :: escapeJsonStr k ++ '"' :: ':' :: stringify v
  | (k, v) :: xs => '"' :: escapeJsonStr k ++ '"' :: ':' :: stringify v ++ ',' :: stringifyFields xs

end

mutual

/-- JavaScript `String(v)` / template-literal conversion of a parsed value. -/
def jsTemplateJ : Json → List Char
  | .null => "null".data
  | .bool true => "true".data
  | .bool false => "false".data
  | .num tok => tok
  | .str s => s
  | .arr xs => jsTemplateArr xs
  | .obj _ => "[object Object]".data

/-- Model of `Array.prototype.join` with the default separator: `null` elements render
as the empty string. -/
def jsTemplateArr : List Json → List Char
  | [] => []
  | [Json.null] => []
  | [x] => jsTemplateJ x
  | Json.null :: xs => ',' :: jsTemplateArr xs
  | x :: xs => jsTemplateJ x ++ ',' :: jsTemplateArr xs

end

/-- Template-literal conversion of a possibly-undefined value
(for the interpolation in the dedup key). -/
def jsTemplate (v : Option Json) : List Char :=
  match v with
  | none => "undefined".data
  | some j => jsTemplateJ j

/-- Interpolation of `JSON.stringify(x)` where `x` may be `undefined`:
`JSON.stringify(undefined)` is `undefined`, rendered `"undefined"` by the
template literal. -/
def stringifyTemplate (v : Option Json) : List Char :=
  match v with
  | none => "undefined".data
  | some j => stringify j

/-! ## Session state, events, and the two message processors

Source: `getStreamingAIResponse` (src/chat/chat.service.ts:345-531).  The
closure-captured variables `streamedContent`, `rawBuffer` and
`processedTools` become the fields of `DemuxState`; every `subscriber.next`
becomes an emitted `ChatEvent`. -/

/-- The three captured mutable variables of one streaming session
(lines 347–353). -/
structure DemuxState where
  streamedContent : List Char
  rawBuffer : List Char
  processedTools : List (List Char)

/-- Fresh state created when the Observable is subscribed. -/
def initialState : DemuxState := ⟨[], [], []⟩

/-- Events pushed to the subscriber, abstracted from their SSE wire framing:
`tool` for line 396, `delta` for line 424, `complete` for line 508. -/
inductive ChatEvent where
  | tool (payload : Json) : ChatEvent
  | delta (text : List Char) : ChatEvent
  | complete (text : List Char) : ChatEvent

/-- String-literal constants used by the service. -/
def MSG_TOOL : List Char := "Tool :".data

/-- The model-stream tag literal, `MESSAGE_TYPES.TOLY`. -/
def MSG_TOLY : List Char := "Toly :".data

/-- Both identifiers are 6 characters long (line 360). -/
def IDENTIFIER_LENGTH : Nat := 6

/-- Field name `tool_name`. -/
def toolNameLit : List Char := "tool_name".data

/-- Field name `additional_kwargs`. -/
def additionalKwargsLit : List Char := "additional_kwargs".data

/-- Field name `event`. -/
def eventLit : List Char := "event".data

/-- Field name `metadata`. -/
def metadataLit : List Char := "metadata".data

/-- Field name `langgraph_node`. -/
def langgraphNodeLit : List Char := "langgraph_node".data

/-- Field name `data`. -/
def dataLit : List Char := "data".data

/-- Field name `chunk`. -/
def chunkLit : List Char := "chunk".data

/-- Field name `content`. -/
def contentLit : List Char := "content".data

/-- The streaming-token event marker `on_chat_model_stream`. -/
def onChatModelStreamLit : List Char := "on_chat_model_stream".data

/-- The designated generation node name `Toly`. -/
def tolyNodeLit : List Char := "Toly".data

/-- The dedup key computed at line 392:
```${toolData.tool_name}-${JSON.stringify(toolData.additional_kwargs)}``` . -/
def toolKeyOf (toolData : Json) : List Char :=
  jsTemplate (fieldOf toolData toolNameLit) ++
    '-' :: stringifyTemplate (fieldOf toolData additionalKwargsLit)

/-- The `try` block of `processToolMessage` (lines 387–403): parse the trimmed
body, read `tool_name` / `additional_kwargs` (throws when the parsed value is
`null`), and emit once per fresh dedup key.  Returns the new dedup set and the
emitted events, or `error` when the block throws. -/
def toolTryBody (st : DemuxState) (content : List Char) :
    Except Unit (List (List Char) × List ChatEvent) :=
  match parseJson (trimChars content) with
  | none => .error ()
  | some Json.null => .error ()
  | some toolData =>
    if toolKeyOf toolData ∈ st.processedTools then .ok (st.processedTools, [])
    else .ok (toolKeyOf toolData :: st.processedTools, [ChatEvent.tool toolData])

/-- Model of `processToolMessage` (lines 386–411): `true` means consumed; a thrown
error is swallowed, returning `true` at end-of-stream (lenient drop) and
`false` otherwise (defer). -/
def processToolMessage (st : DemuxState) (content : List Char) (isEnd : Bool) :
    Bool × DemuxState × List ChatEvent :=
  match toolTryBody st content with
  | .ok r => (true, { st with processedTools := r.1 }, r.2)
  | .error _ => if isEnd then (true, st, []) else (false, st, [])

/-- The filter at lines 417–418:
`parsedData.event === 'on_chat_model_stream' &&
 parsedData.metadata?.langgraph_node === 'Toly'`
(evaluated on a parsed value already known not to be `null`). -/
def tolyFilterMatches (pd : Json) : Bool :=
  jsStrEq (fieldOf pd eventLit) onChatModelStreamLit &&
    jsStrEq (optChain (fieldOf pd metadataLit) langgraphNodeLit) tolyNodeLit

/-- The `try` block of `processTolyMessage` (lines 414–427): parse the body
(untrimmed), filter, then read `parsedData.data.chunk?.content` — the plain
access `.chunk` throws when `data` is missing or `null`.  Returns the new
transcript and the emitted events, or `error` when the block throws. -/
def tolyTryBody (st : DemuxState) (content : List Char) :
    Except Unit (List Char × List ChatEvent) :=
  match parseJson content with
  | none => .error ()
  | some Json.null => .error ()
  | some pd =>
    if tolyFilterMatches pd then
      match fieldOf pd dataLit with
      | none => .error ()
      | some Json.null => .error ()
      | some dv =>
        if truthy (optChain (fieldOf dv chunkLit) contentLit) then
          .ok (st.streamedContent ++ jsTemplate (optChain (fieldOf dv chunkLit) contentLit),
            [ChatEvent.delta (jsTemplate (optChain (fieldOf dv chunkLit) contentLit))])
        else .ok (st.streamedContent, [])
    else .ok (st.streamedContent, [])

/-- Model of `processTolyMessage` (lines 413–435): same consumed/defer/drop protocol as
the tool processor. -/
def processTolyMessage (st : DemuxState) (content : List Char) (isEnd : Bool) :
    Bool × DemuxState × List ChatEvent :=
  match tolyTryBody st content with
  | .ok r => (true, { st with streamedContent := r.1 }, r.2)
  | .error _ => if isEnd then (true, st, []) else (false, st, [])

/-! ## Scanner, extractor, and the drain loop -/

/-- Model of `findNextMessageStart` (lines 362–373): the earliest occurrence of either
tag at an offset `≥ currentPos + IDENTIFIER_LENGTH`; `none` models the
`Infinity` result. -/
def findNextMessageStart (rawBuffer : List Char) (currentPos : Nat) : Option Nat :=
  let posTool := indexOfFrom MSG_TOOL rawBuffer (currentPos + IDENTIFIER_LENGTH)
  let posToly := indexOfFrom MSG_TOLY rawBuffer (currentPos + IDENTIFIER_LENGTH)
  match posTool, posToly with
  | none, p => p
  | some a, none => some a
  | some a, some b => some (min a b)

/-- Model of `extractMessageContent` (lines 376–384): the body between the end of the
tag at `startPos` and the next tag (or the end of the buffer). -/
def extractMessageContent (rawBuffer : List Char) (startPos : Nat) :
    List Char × Option Nat :=
  match findNextMessageStart rawBuffer startPos with
  | some n =>
    ((rawBuffer.drop (startPos + IDENTIFIER_LENGTH)).take (n - (startPos + IDENTIFIER_LENGTH)),
      some n)
  | none => (rawBuffer.drop (startPos + IDENTIFIER_LENGTH), none)

/-- The two buffer updates `rawBuffer = nextMsgStart !== Infinity ?
rawBuffer.substring(nextMsgStart) : ''` (lines 457–459 and 465–467). -/
def consumeTo (st : DemuxState) (nextMsgStart : Option Nat) : DemuxState :=
  match nextMsgStart with
  | some n => { st with rawBuffer := st.rawBuffer.drop n }
  | none => { st with rawBuffer := [] }

/-- The `while (true)` loop of `processMessages` (lines 437–470), with an
explicit fuel (the loop either breaks or strictly shrinks the buffer, so any
fuel above `rawBuffer.length` is never exhausted; see
`processMessagesTop`). -/
def processMessages
    (ident : List Char)
    (processor : DemuxState → List Char → Bool → Bool × DemuxState × List ChatEvent)
    (isEnd : Bool) : Nat → DemuxState → DemuxState × List ChatEvent
  | 0, st => (st, [])
  | fuel + 1, st =>
    match indexOfFrom ident st.rawBuffer 0 with
    | none => (st, [])
    | some msgStart =>
      let ext := extractMessageContent st.rawBuffer msgStart
      if ext.2.isNone && !isEnd then (st, [])
      else
        let r := processor st ext.1 isEnd
        if r.1 then
          let next := processMessages ident processor isEnd fuel (consumeTo r.2.1 ext.2)
          (next.1, r.2.2 ++ next.2)
        else if !isEnd then (r.2.1, r.2.2)
        else
          let next := processMessages ident processor isEnd fuel (consumeTo r.2.1 ext.2)
          (next.1, r.2.2 ++ next.2)

/-- Runs `processMessages` with adequate fuel. -/
def processMessagesTop
    (ident : List Char)
    (processor : DemuxState → List Char → Bool → Bool × DemuxState × List ChatEvent)
    (isEnd : Bool) (st : DemuxState) : DemuxState × List ChatEvent :=
  processMessages ident processor isEnd (st.rawBuffer.length + 1) st

/-- Model of `processBufferedData` (lines 473–478): the Tool pass always runs to
completion before the Toly pass starts. -/
def processBufferedData (st : DemuxState) (isEnd : Bool) : DemuxState × List ChatEvent :=
  let toolRun := processMessagesTop MSG_TOOL processToolMessage isEnd st
  let tolyRun := processMessagesTop MSG_TOLY processTolyMessage isEnd toolRun.1
  (tolyRun.1, toolRun.2 ++ tolyRun.2)

/-- The `data` handler (lines 491–500): append the chunk to the buffer, then
run a non-final pass. -/
def onDataChunk (st : DemuxState) (chunk : List Char) : DemuxState × List ChatEvent :=
  processBufferedData { st with rawBuffer := st.rawBuffer ++ chunk } false

/-- The `end` handler (lines 502–515): one final lenient pass, then the
terminal content event carrying the accumulated transcript. -/
def onEndStream (st : DemuxState) : DemuxState × List ChatEvent :=
  let finalRun := processBufferedData st true
  (finalRun.1, finalRun.2 ++ [ChatEvent.complete finalRun.1.streamedContent])

/-- Deliver a list of chunks in order through the `data` handler. -/
def feedAll : DemuxState → List (List Char) → DemuxState × List ChatEvent
  | st, [] => (st, [])
  | st, c :: cs =>
    let r := onDataChunk st c
    let r2 := feedAll r.1 cs
    (r2.1, r.2 ++ r2.2)

/-- One whole successful session: a fresh state, the chunks in order, then
end-of-stream.  The result is the ordered event sequence the subscriber
receives. -/
def streamSession (chunks : List (List Char)) : List ChatEvent :=
  let r := feedAll initialState chunks
  let e := onEndStream r.1
  r.2 ++ e.2

/-! ## Event projections -/

/-- Recognise the terminal content event. -/
def isCompleteEvt : ChatEvent → Bool
  | .complete _ => true
  | _ => false

/-- Recognise a tool event. -/
def isToolEvt : ChatEvent → Bool
  | .tool _ => true
  | _ => false

/-- Recognise a text-delta event. -/
def isDeltaEvt : ChatEvent → Bool
  | .delta _ => true
  | _ => false

/-- Text of a delta event. -/
def deltaTextOf : ChatEvent → Option (List Char)
  | .delta t => some t
  | _ => none

/-- The delta texts of an event sequence, in order. -/
def deltaTexts (evs : List ChatEvent) : List (List Char) := evs.filterMap deltaTextOf

/-- Dedup key of a tool event's payload. -/
def toolKeyOfEvt : ChatEvent → Option (List Char)
  | .tool d => some (toolKeyOf d)
  | _ => none

/-- The dedup keys of the tool events of an event sequence, in order. -/
def toolKeys (evs : List ChatEvent) : List (List Char) := evs.filterMap toolKeyOfEvt

/-- The tag either of the two literals occurs at offset `i`. -/
def tagOccursAt (s : List Char) (i : Nat) : Prop :=
  matchesAt MSG_TOOL s i ∨ matchesAt MSG_TOLY s i

instance instDecTagOccursAt (s : List Char) (i : Nat) : Decidable (tagOccursAt s i) := by
  unfold tagOccursAt
  exact inferInstance

/-! ## Step relation used by the session-wide invariants

`stProj` forgets the buffer; the processors and the drain loop are related to
composable step properties over (dedup set, transcript). -/

/-- The observable part of the state for session-wide invariants. -/
def stProj (st : DemuxState) : List (List Char) × List Char :=
  (st.processedTools, st.streamedContent)

/-- Dedup bookkeeping of one processing step: the keys of the tool events it
emits are distinct, fresh relative to the starting dedup set, recorded in the
final dedup set, and the dedup set only grows. -/
def DedupStep (T T' : List (List Char)) (evs : List ChatEvent) : Prop :=
  (toolKeys evs).Nodup ∧
    (∀ k ∈ toolKeys evs, k ∉ T) ∧
    (∀ k ∈ toolKeys evs, k ∈ T') ∧
    ∀ k ∈ T, k ∈ T'

/-! ## Concrete inputs used by counterexamples and witnesses -/

/-- A model-stream payload whose delta text is `A`. -/
def tolyPayloadA : List Char :=
  ("\x7b\"event\":\"on_chat_model_stream\",\"metadata\":\x7b\"langgraph_node\":\"Toly\"\x7d,\"data\":\x7b\"chunk\":\x7b\"content\":\"A\"\x7d\x7d\x7d").data

/-- A model-stream payload whose delta text is `B`. -/
def tolyPayloadB : List Char :=
  ("\x7b\"event\":\"on_chat_model_stream\",\"metadata\":\x7b\"langgraph_node\":\"Toly\"\x7d,\"data\":\x7b\"chunk\":\x7b\"content\":\"B\"\x7d\x7d\x7d").data

/-- A well-formed tool notice body. -/
def toolPayloadT : List Char :=
  ("\x7b\"tool_name\":\"t\",\"additional_kwargs\":\x7b\x7d\x7d").data

/-- A model-stream payload that decodes but whose filter does not match. -/
def fragChunk1 : List Char := MSG_TOLY ++ tolyPayloadA ++ MSG_TOLY ++ ("x").data

/-- Second chunk of the fragmentation counterexample. -/
def fragChunk2 : List Char := MSG_TOOL ++ toolPayloadT ++ MSG_TOLY

/-- Buffer for the mid-stream loss counterexample: a complete tool frame with
an undecodable body, followed by a complete, decodable model frame. -/
def lossChunk : List Char := MSG_TOOL ++ ("x").data ++ MSG_TOLY ++ tolyPayloadB ++ MSG_TOLY

/-- Input containing two identical decodable tool notices that are both
swallowed mid-stream: an undecodable tool frame defers the Tool pass, then
the Toly pass consumes past all three tool frames. -/
def dedupLossInput : List Char :=
  MSG_TOOL ++ ("x").data ++ MSG_TOOL ++ toolPayloadT ++ MSG_TOOL ++ toolPayloadT ++
    MSG_TOLY ++ tolyPayloadB ++ MSG_TOLY

/-! ## Lemmas: the scanner -/

theorem scanFrom_some_spec {pat s : List Char} :
    ∀ (fuel i j : Nat), scanFrom pat s i fuel = some j →
      i ≤ j ∧ matchesAt pat s j ∧ ∀ k, i ≤ k → k < j → ¬matchesAt pat s k := by
  intro fuel
  induction fuel with
  | zero => intro i j h; simp [scanFrom] at h
  | succ fuel ih =>
    intro i j h
    rw [scanFrom] at h
    by_cases hm : matchesAt pat s i
    · simp only [if_pos hm, Option.some.injEq] at h
      subst h
      exact ⟨Nat.le_refl i, hm, fun k hk hk' => absurd hk (by omega)⟩
    · simp only [if_neg hm] at h
      obtain ⟨h1, h2, h3⟩ := ih (i + 1) j h
      refine ⟨by omega, h2, fun k hk hk' => ?_⟩
      rcases Nat.eq_or_lt_of_le hk with rfl | hk2
      · exact hm
      · exact h3 k hk2 hk'

theorem scanFrom_none_spec {pat s : List Char} :
    ∀ (fuel i : Nat), scanFrom pat s i fuel = none →
      ∀ k, i ≤ k → k < i + fuel → ¬matchesAt pat s k := by
  intro fuel
  induction fuel with
  | zero => intro i _ k hk hk'; omega
  | succ fuel ih =>
    intro i h k hk hk'
    rw [scanFrom] at h
    by_cases hm : matchesAt pat s i
    · simp [if_pos hm] at h
    · simp only [if_neg hm] at h
      rcases Nat.eq_or_lt_of_le hk with rfl | hk2
      · exact hm
      · exact ih (i + 1) h k hk2 (by omega)

theorem matchesAt_length_le {pat s : List Char} {j : Nat}
    (hne : pat ≠ []) (h : matchesAt pat s j) : j + pat.length ≤ s.length := by
  unfold matchesAt at h
  have hlen := congrArg List.length h
  have hpos : 0 < pat.length := List.length_pos.mpr hne
  simp only [List.length_take, List.length_drop] at hlen
  omega

theorem indexOfFrom_some_spec {pat s : List Char} {start j : Nat}
    (h : indexOfFrom pat s start = some j) :
    start ≤ j ∧ matchesAt pat s j ∧ ∀ k, start ≤ k → k < j → ¬matchesAt pat s k :=
  scanFrom_some_spec _ _ _ h

theorem indexOfFrom_none_spec {pat s : List Char} {start : Nat}
    (hne : pat ≠ []) (h : indexOfFrom pat s start = none) :
    ∀ k, start ≤ k → ¬matchesAt pat s k := by
  intro k hk hm
  have hb := matchesAt_length_le hne hm
  have hpos : 0 < pat.length := List.length_pos.mpr hne
  exact scanFrom_none_spec _ _ h k hk (by omega) hm

theorem MSG_TOOL_ne_nil : MSG_TOOL ≠ [] := by decide

theorem MSG_TOLY_ne_nil : MSG_TOLY ≠ [] := by decide

theorem findNextMessageStart_some_spec {buf : List Char} {p j : Nat}
    (h : findNextMessageStart buf p = some j) :
    p + IDENTIFIER_LENGTH ≤ j ∧ tagOccursAt buf j ∧
      ∀ m, p + IDENTIFIER_LENGTH ≤ m → tagOccursAt buf m → j ≤ m := by
  unfold findNextMessageStart at h
  rcases h1 : indexOfFrom MSG_TOOL buf (p + IDENTIFIER_LENGTH) with _ | a <;>
    rcases h2 : indexOfFrom MSG_TOLY buf (p + IDENTIFIER_LENGTH) with _ | b <;>
      simp only [h1, h2, Option.some.injEq, reduceCtorEq] at h
  · obtain ⟨hb1, hb2, hb3⟩ := indexOfFrom_some_spec h2
    subst h
    refine ⟨hb1, Or.inr hb2, fun m hm ht => ?_⟩
    by_contra hlt
    rcases ht with ht | ht
    · exact indexOfFrom_none_spec MSG_TOOL_ne_nil h1 m hm ht
    · exact hb3 m hm (by omega) ht
  · obtain ⟨ha1, ha2, ha3⟩ := indexOfFrom_some_spec h1
    subst h
    refine ⟨ha1, Or.inl ha2, fun m hm ht => ?_⟩
    by_contra hlt
    rcases ht with ht | ht
    · exact ha3 m hm (by omega) ht
    · exact indexOfFrom_none_spec MSG_TOLY_ne_nil h2 m hm ht
  · obtain ⟨ha1, ha2, ha3⟩ := indexOfFrom_some_spec h1
    obtain ⟨hb1, hb2, hb3⟩ := indexOfFrom_some_spec h2
    subst h
    constructor
    · exact le_min ha1 hb1
    constructor
    · rcases le_total a b with hab | hab
      · rw [min_eq_left hab]; exact Or.inl ha2
      · rw [min_eq_right hab]; exact Or.inr hb2
    · intro m hm ht
      rcases ht with ht | ht
      · have : a ≤ m := by
          by_contra hlt
          exact ha3 m hm (by omega) ht
        exact le_trans (min_le_left a b) this
      · have : b ≤ m := by
          by_contra hlt
          exact hb3 m hm (by omega) ht
        exact le_trans (min_le_right a b) this

theorem findNextMessageStart_none_spec {buf : List Char} {p : Nat}
    (h : findNextMessageStart buf p = none) :
    ∀ m, p + IDENTIFIER_LENGTH ≤ m → ¬tagOccursAt buf m := by
  unfold findNextMessageStart at h
  rcases h1 : indexOfFrom MSG_TOOL buf (p + IDENTIFIER_LENGTH) with _ | a <;>
    rcases h2 : indexOfFrom MSG_TOLY buf (p + IDENTIFIER_LENGTH) with _ | b <;>
      simp only [h1, h2, reduceCtorEq] at h
  intro m hm ht
  rcases ht with ht | ht
  · exact indexOfFrom_none_spec MSG_TOOL_ne_nil h1 m hm ht
  · exact indexOfFrom_none_spec MSG_TOLY_ne_nil h2 m hm ht

/-! ## Lemmas: event projections -/

theorem toolKeys_nil : toolKeys [] = [] := rfl

theorem toolKeys_append (a b : List ChatEvent) :
    toolKeys (a ++ b) = toolKeys a ++ toolKeys b :=
  List.filterMap_append a b toolKeyOfEvt

theorem deltaTexts_nil : deltaTexts [] = [] := rfl

theorem deltaTexts_append (a b : List ChatEvent) :
    deltaTexts (a ++ b) = deltaTexts a ++ deltaTexts b :=
  List.filterMap_append a b deltaTextOf

/-! ## Lemmas: the two processors -/

/-- Shape of the `try` block of the Tool processor on success: either nothing
is emitted (the dedup set is unchanged), or exactly one fresh tool event is
emitted and its key is recorded. -/
theorem toolTryBody_spec (st : DemuxState) (content : List Char) :
    ∀ r, toolTryBody st content = .ok r →
      (r.2 = [] ∧ r.1 = st.processedTools) ∨
      (∃ d, r.2 = [ChatEvent.tool d] ∧ toolKeyOf d ∉ st.processedTools ∧
        r.1 = toolKeyOf d :: st.processedTools) := by
  intro r h
  unfold toolTryBody at h
  split at h
  · exact absurd h (by simp)
  · exact absurd h (by simp)
  · rename_i base v hnn heq
    split at h
    · simp only [Except.ok.injEq] at h
      exact Or.inl ⟨by rw [← h], by rw [← h]⟩
    · rename_i hk
      simp only [Except.ok.injEq] at h
      exact Or.inr ⟨v, by rw [← h], hk, by rw [← h]⟩

/-- Shape of the `try` block of the Toly processor on success: either nothing
is emitted (the transcript is unchanged), or exactly one delta event is
emitted and its text is appended to the transcript. -/
theorem tolyTryBody_spec (st : DemuxState) (content : List Char) :
    ∀ r, tolyTryBody st content = .ok r →
      (r.2 = [] ∧ r.1 = st.streamedContent) ∨
      (∃ t, r.2 = [ChatEvent.delta t] ∧ r.1 = st.streamedContent ++ t) := by
  intro r h
  unfold tolyTryBody at h
  split at h
  · exact absurd h (by simp)
  · exact absurd h (by simp)
  · split at h
    · split at h
      · exact absurd h (by simp)
      · exact absurd h (by simp)
      · split at h
        · simp only [Except.ok.injEq] at h
          exact Or.inr ⟨_, by rw [← h], by rw [← h]⟩
        · simp only [Except.ok.injEq] at h
          exact Or.inl ⟨by rw [← h], by rw [← h]⟩
    · simp only [Except.ok.injEq] at h
      exact Or.inl ⟨by rw [← h], by rw [← h]⟩

/-! ## The step-relation machinery

Session-wide invariants are composable properties `S` of (initial observable
state, final observable state, emitted events); they are proved for one
processor call and lifted through the drain loop, the per-chunk pass, and the
whole session. -/

theorem stProj_consumeTo (st : DemuxState) (o : Option Nat) :
    stProj (consumeTo st o) = stProj st := by
  cases o <;> rfl

theorem stProj_setBuffer (st : DemuxState) (b : List Char) :
    stProj { st with rawBuffer := b } = stProj st := rfl

/-- Lift a composable step property from one processor call to the
`processMessages` loop. -/
theorem processMessages_step
    (S : List (List Char) × List Char → List (List Char) × List Char → List ChatEvent → Prop)
    (hRefl : ∀ a, S a a [])
    (hTrans : ∀ a b c e1 e2, S a b e1 → S b c e2 → S a c (e1 ++ e2))
    (P : DemuxState → List Char → Bool → Bool × DemuxState × List ChatEvent)
    (hP : ∀ st content isEnd,
      S (stProj st) (stProj (P st content isEnd).2.1) (P st content isEnd).2.2)
    (ident : List Char) (isEnd : Bool) :
    ∀ (fuel : Nat) (st : DemuxState),
      S (stProj st) (stProj (processMessages ident P isEnd fuel st).1)
        (processMessages ident P isEnd fuel st).2 := by
  intro fuel
  induction fuel with
  | zero => intro st; exact hRefl _
  | succ fuel ih =>
    intro st
    rw [processMessages]
    rcases h1 : indexOfFrom ident st.rawBuffer 0 with _ | msgStart
    · exact hRefl _
    · simp only
      by_cases hc : ((extractMessageContent st.rawBuffer msgStart).2.isNone && !isEnd) = true
      · rw [if_pos hc]
        exact hRefl _
      · rw [if_neg hc]
        by_cases hr : (P st (extractMessageContent st.rawBuffer msgStart).1 isEnd).1 = true
        · rw [if_pos hr]
          have step1 := hP st (extractMessageContent st.rawBuffer msgStart).1 isEnd
          have step2 := ih (consumeTo (P st (extractMessageContent st.rawBuffer msgStart).1 isEnd).2.1
            (extractMessageContent st.rawBuffer msgStart).2)
          rw [stProj_consumeTo] at step2
          exact hTrans _ _ _ _ _ step1 step2
        · rw [if_neg hr]
          by_cases he : (!isEnd) = true
          · rw [if_pos he]
            exact hP st (extractMessageContent st.rawBuffer msgStart).1 isEnd
          · rw [if_neg he]
            have step1 := hP st (extractMessageContent st.rawBuffer msgStart).1 isEnd
            have step2 := ih (consumeTo (P st (extractMessageContent st.rawBuffer msgStart).1 isEnd).2.1
              (extractMessageContent st.rawBuffer msgStart).2)
            rw [stProj_consumeTo] at step2
            exact hTrans _ _ _ _ _ step1 step2

/-- Lift a composable step property to the per-chunk pass. -/
theorem processBufferedData_step
    (S : List (List Char) × List Char → List (List Char) × List Char → List ChatEvent → Prop)
    (hRefl : ∀ a, S a a [])
    (hTrans : ∀ a b c e1 e2, S a b e1 → S b c e2 → S a c (e1 ++ e2))
    (hTool : ∀ st content isEnd,
      S (stProj st) (stProj (processToolMessage st content isEnd).2.1)
        (processToolMessage st content isEnd).2.2)
    (hToly : ∀ st content isEnd,
      S (stProj st) (stProj (processTolyMessage st content isEnd).2.1)
        (processTolyMessage st content isEnd).2.2)
    (st : DemuxState) (isEnd : Bool) :
    S (stProj st) (stProj (processBufferedData st isEnd).1)
      (processBufferedData st isEnd).2 := by
  have s1 := processMessages_step S hRefl hTrans processToolMessage hTool MSG_TOOL isEnd
    (st.rawBuffer.length + 1) st
  have s2 := processMessages_step S hRefl hTrans processTolyMessage hToly MSG_TOLY isEnd
    ((processMessagesTop MSG_TOOL processToolMessage isEnd st).1.rawBuffer.length + 1)
    (processMessagesTop MSG_TOOL processToolMessage isEnd st).1
  exact hTrans _ _ _ _ _ s1 s2

/-- Lift a composable step property to the whole feed phase. -/
theorem feedAll_step
    (S : List (List Char) × List Char → List (List Char) × List Char → List ChatEvent → Prop)
    (hRefl : ∀ a, S a a [])
    (hTrans : ∀ a b c e1 e2, S a b e1 → S b c e2 → S a c (e1 ++ e2))
    (hTool : ∀ st content isEnd,
      S (stProj st) (stProj (processToolMessage st content isEnd).2.1)
        (processToolMessage st content isEnd).2.2)
    (hToly : ∀ st content isEnd,
      S (stProj st) (stProj (processTolyMessage st content isEnd).2.1)
        (processTolyMessage st content isEnd).2.2) :
    ∀ (chunks : List (List Char)) (st : DemuxState),
      S (stProj st) (stProj (feedAll st chunks).1) (feedAll st chunks).2 := by
  intro chunks
  induction chunks with
  | nil => intro st; exact hRefl _
  | cons c cs ih =>
    intro st
    have s1 := processBufferedData_step S hRefl hTrans hTool hToly
      { st with rawBuffer := st.rawBuffer ++ c } false
    rw [stProj_setBuffer] at s1
    have s2 := ih (onDataChunk st c).1
    exact hTrans _ _ _ _ _ s1 s2

/-! ## Small projection computations -/

theorem toolKeys_tool_singleton (d : Json) :
    toolKeys [ChatEvent.tool d] = [toolKeyOf d] := rfl

theorem toolKeys_delta_singleton (t : List Char) :
    toolKeys [ChatEvent.delta t] = [] := rfl

theorem toolKeys_complete_singleton (t : List Char) :
    toolKeys [ChatEvent.complete t] = [] := rfl

theorem deltaTexts_tool_singleton (d : Json) :
    deltaTexts [ChatEvent.tool d] = [] := rfl

theorem deltaTexts_delta_singleton (t : List Char) :
    deltaTexts [ChatEvent.delta t] = [t] := rfl

/-! ## Dedup bookkeeping -/

theorem DedupStep_of_no_keys {T : List (List Char)} {evs : List ChatEvent}
    (h : toolKeys evs = []) : DedupStep T T evs :=
  ⟨h ▸ List.nodup_nil, fun k hk => absurd (h ▸ hk) (List.not_mem_nil k),
    fun k hk => absurd (h ▸ hk) (List.not_mem_nil k), fun _ hk => hk⟩

theorem DedupStep_refl (T : List (List Char)) : DedupStep T T [] :=
  DedupStep_of_no_keys rfl

theorem DedupStep_trans {T1 T2 T3 : List (List Char)} {e1 e2 : List ChatEvent}
    (h1 : DedupStep T1 T2 e1) (h2 : DedupStep T2 T3 e2) :
    DedupStep T1 T3 (e1 ++ e2) := by
  obtain ⟨n1, f1, i1, m1⟩ := h1
  obtain ⟨n2, f2, i2, m2⟩ := h2
  refine ⟨?_, ?_, ?_, fun k hk => m2 k (m1 k hk)⟩
  · rw [toolKeys_append, List.nodup_append]
    exact ⟨n1, n2, fun k hk1 hk2 => f2 k hk2 (i1 k hk1)⟩
  · intro k hk
    rw [toolKeys_append] at hk
    rcases List.mem_append.mp hk with hk | hk
    · exact f1 k hk
    · intro hT1
      exact f2 k hk (m1 k hT1)
  · intro k hk
    rw [toolKeys_append] at hk
    rcases List.mem_append.mp hk with hk | hk
    · exact m2 _ (i1 k hk)
    · exact i2 k hk

/-- The Tool processor performs one dedup step. -/
theorem processToolMessage_dedup (st : DemuxState) (content : List Char) (isEnd : Bool) :
    DedupStep st.processedTools (processToolMessage st content isEnd).2.1.processedTools
      (processToolMessage st content isEnd).2.2 := by
  unfold processToolMessage
  rcases h : toolTryBody st content with e | r
  · simp only [h]
    split <;> exact DedupStep_refl _
  · simp only [h]
    rcases toolTryBody_spec st content r h with ⟨h2, h1⟩ | ⟨d, h2, hkd, h1⟩
    · rw [h2, h1]
      exact DedupStep_refl _
    · rw [h2, h1]
      refine ⟨?_, ?_, ?_, fun k hk => List.mem_cons_of_mem _ hk⟩
      · rw [toolKeys_tool_singleton]
        exact List.nodup_singleton _
      · intro k hk
        rw [toolKeys_tool_singleton, List.mem_singleton] at hk
        subst hk
        exact hkd
      · intro k hk
        rw [toolKeys_tool_singleton, List.mem_singleton] at hk
        subst hk
        exact List.mem_cons_self _ _

/-- The Toly processor neither emits tool events nor touches the dedup set. -/
theorem processTolyMessage_dedup (st : DemuxState) (content : List Char) (isEnd : Bool) :
    DedupStep st.processedTools (processTolyMessage st content isEnd).2.1.processedTools
      (processTolyMessage st content isEnd).2.2 := by
  unfold processTolyMessage
  rcases h : tolyTryBody st content with e | r
  · simp only [h]
    split <;> exact DedupStep_refl _
  · simp only [h]
    rcases tolyTryBody_spec st content r h with ⟨h2, _⟩ | ⟨t, h2, _⟩ <;> rw [h2]
    · exact DedupStep_refl _
    · exact DedupStep_of_no_keys (toolKeys_delta_singleton t)

/-! ## Transcript bookkeeping -/

/-- The Tool processor leaves the transcript alone and emits no terminal or
delta events. -/
theorem processToolMessage_trans (st : DemuxState) (content : List Char) (isEnd : Bool) :
    (processToolMessage st content isEnd).2.1.streamedContent
        = st.streamedContent ++ (deltaTexts (processToolMessage st content isEnd).2.2).flatten ∧
      ∀ e ∈ (processToolMessage st content isEnd).2.2, isCompleteEvt e = false := by
  unfold processToolMessage
  rcases h : toolTryBody st content with e | r
  · simp only [h]
    split <;> exact ⟨by simp [deltaTexts_nil], by simp⟩
  · simp only [h]
    rcases toolTryBody_spec st content r h with ⟨h2, _⟩ | ⟨d, h2, _, _⟩ <;> rw [h2]
    · exact ⟨by simp [deltaTexts_nil], by simp⟩
    · refine ⟨by simp [deltaTexts_tool_singleton], ?_⟩
      intro e he
      rw [List.mem_singleton] at he
      subst he
      rfl

/-- The Toly processor appends to the transcript exactly the delta text it
emits, and emits no terminal events. -/
theorem processTolyMessage_trans (st : DemuxState) (content : List Char) (isEnd : Bool) :
    (processTolyMessage st content isEnd).2.1.streamedContent
        = st.streamedContent ++ (deltaTexts (processTolyMessage st content isEnd).2.2).flatten ∧
      ∀ e ∈ (processTolyMessage st content isEnd).2.2, isCompleteEvt e = false := by
  unfold processTolyMessage
  rcases h : tolyTryBody st content with e | r
  · simp only [h]
    split <;> exact ⟨by simp [deltaTexts_nil], by simp⟩
  · simp only [h]
    rcases tolyTryBody_spec st content r h with ⟨h2, h1⟩ | ⟨t, h2, h1⟩ <;> rw [h2]
    · exact ⟨by simp [deltaTexts_nil, h1], by simp⟩
    · refine ⟨by simp [deltaTexts_delta_singleton, h1], ?_⟩
      intro e he
      rw [List.mem_singleton] at he
      subst he
      rfl

/-! ## Event kinds emitted by each processor -/

theorem processToolMessage_only_tool (st : DemuxState) (content : List Char) (isEnd : Bool) :
    ∀ ev ∈ (processToolMessage st content isEnd).2.2, isToolEvt ev = true := by
  unfold processToolMessage
  rcases h : toolTryBody st content with e | r
  · simp only [h]
    split <;> simp
  · simp only [h]
    rcases toolTryBody_spec st content r h with ⟨h2, _⟩ | ⟨d, h2, _, _⟩ <;> rw [h2]
    · simp
    · intro ev he
      rw [List.mem_singleton] at he
      subst he
      rfl

theorem processTolyMessage_only_delta (st : DemuxState) (content : List Char) (isEnd : Bool) :
    ∀ ev ∈ (processTolyMessage st content isEnd).2.2, isDeltaEvt ev = true := by
  unfold processTolyMessage
  rcases h : tolyTryBody st content with e | r
  · simp only [h]
    split <;> simp
  · simp only [h]
    rcases tolyTryBody_spec st content r h with ⟨h2, _⟩ | ⟨t, h2, _⟩ <;> rw [h2]
    · simp
    · intro ev he
      rw [List.mem_singleton] at he
      subst he
      rfl

/-! ## One-step symbolic evaluation of the drain loop -/

theorem extractMessageContent_snd (buf : List Char) (p : Nat) :
    (extractMessageContent buf p).2 = findNextMessageStart buf p := by
  unfold extractMessageContent
  rcases h : findNextMessageStart buf p with _ | n <;> simp [h]

theorem consumeTo_none (st : DemuxState) :
    consumeTo st none = { st with rawBuffer := [] } := rfl

theorem indexOfFrom_nil (ident : List Char) (hident : ident ≠ []) (start : Nat) :
    indexOfFrom ident [] start = none := by
  unfold indexOfFrom
  rcases h : [].length + 1 - start with _ | f
  · rfl
  · rw [scanFrom]
    rw [if_neg ?_]
    · cases f with
      | zero => rfl
      | succ f =>
        exfalso
        simp only [List.length_nil] at h
        omega
    · intro hm
      unfold matchesAt at hm
      simp only [List.drop_nil, List.take_nil] at hm
      exact hident hm.symm

theorem processMessages_empty_buffer
    (ident : List Char)
    (P : DemuxState → List Char → Bool → Bool × DemuxState × List ChatEvent)
    (isEnd : Bool) (fuel : Nat) (st : DemuxState)
    (hb : st.rawBuffer = []) (hident : ident ≠ []) :
    processMessages ident P isEnd fuel st = (st, []) := by
  cases fuel with
  | zero => rfl
  | succ fuel =>
    rw [processMessages]
    have hnone : indexOfFrom ident st.rawBuffer 0 = none := by
      rw [hb]
      exact indexOfFrom_nil ident hident 0
    simp only [hnone]

theorem processMessagesTop_no_ident
    (ident : List Char)
    (P : DemuxState → List Char → Bool → Bool × DemuxState × List ChatEvent)
    (isEnd : Bool) (st : DemuxState)
    (h : indexOfFrom ident st.rawBuffer 0 = none) :
    processMessagesTop ident P isEnd st = (st, []) := by
  unfold processMessagesTop
  rw [processMessages]
  simp only [h]

theorem processToolMessage_error_feed (st : DemuxState) (content : List Char)
    (h : toolTryBody st content = .error ()) :
    processToolMessage st content false = (false, st, []) := by
  simp [processToolMessage, h]

theorem processToolMessage_error_end (st : DemuxState) (content : List Char)
    (h : toolTryBody st content = .error ()) :
    processToolMessage st content true = (true, st, []) := by
  simp [processToolMessage, h]

theorem processTolyMessage_error_end (st : DemuxState) (content : List Char)
    (h : tolyTryBody st content = .error ()) :
    processTolyMessage st content true = (true, st, []) := by
  simp [processTolyMessage, h]

/-- Final lenient pass over a buffer whose only frame of kind `ident` is
trailing (no tag after it) and whose body the processor drops: the whole
buffer is consumed, nothing is emitted. -/
theorem processMessagesTop_trailing_drop
    (ident : List Char)
    (P : DemuxState → List Char → Bool → Bool × DemuxState × List ChatEvent)
    (st : DemuxState) (p : Nat)
    (hP : P st (extractMessageContent st.rawBuffer p).1 true = (true, st, []))
    (h1 : indexOfFrom ident st.rawBuffer 0 = some p)
    (h4 : findNextMessageStart st.rawBuffer p = none)
    (hident : ident ≠ []) :
    processMessagesTop ident P true st = ({ st with rawBuffer := [] }, []) := by
  unfold processMessagesTop
  rw [processMessages]
  simp only [h1]
  rw [extractMessageContent_snd, h4]
  simp only [Option.isNone_none, Bool.not_true, Bool.and_false, Bool.false_eq_true, if_false]
  rw [hP]
  simp only [if_true]
  rw [consumeTo_none]
  rw [processMessages_empty_buffer ident P true _ _ rfl hident]
  rfl

/-! ## The claims -/

/-- C1: fragmentation invariance fails on the code.  Delivering
`fragChunk1 ++ fragChunk2` as two chunks emits `[delta "A", tool t,
complete "A"]`, while delivering the same bytes as one chunk emits
`[tool t, complete ""]`: when the Tool pass consumes the tool frame it cuts
the buffer from position 0 up to the tag after that frame, silently
discarding the two complete model frames that precede it
(`rawBuffer.substring(nextMsgStart)`, src line 457). -/
theorem claim_C1 :
    streamSession [fragChunk1, fragChunk2] ≠ streamSession [fragChunk1 ++ fragChunk2] := by
  intro h
  exact absurd (congrArg deltaTexts h) (by decide)

/-- Supporting evaluation for the fragmentation failure: the two-chunk
delivery emits the delta `A` (three events in all), the one-chunk delivery
emits no delta (two events in all). -/
theorem fragmentation_runs_in_detail :
    deltaTexts (streamSession [fragChunk1, fragChunk2]) = [("A").data] ∧
      deltaTexts (streamSession [fragChunk1 ++ fragChunk2]) = [] ∧
      (streamSession [fragChunk1, fragChunk2]).length = 3 ∧
      (streamSession [fragChunk1 ++ fragChunk2]).length = 2 :=
  ⟨by decide, by decide, by decide, by decide⟩

/-- C2 (counterexample): a complete Tool frame with an undecodable body is
removed from the buffer *before* end-of-stream.  Feeding `lossChunk`
(`Tool :x Toly :<valid> Toly :`) in one non-final pass leaves a buffer that no
longer contains the deferred Tool frame: the Toly pass consumed it. -/
theorem claim_C2_counterexample :
    (extractMessageContent lossChunk 0).2 = some 7 ∧
      matchesAt MSG_TOOL lossChunk 0 ∧
      toolTryBody initialState (extractMessageContent lossChunk 0).1 = .error () ∧
      (onDataChunk initialState lossChunk).1.rawBuffer = MSG_TOLY ∧
      indexOfFrom MSG_TOOL (onDataChunk initialState lossChunk).1.rawBuffer 0 = none :=
  ⟨by decide, by decide, by rfl, by decide, by decide⟩

/-- C2 (amended): a complete frame whose body fails to decode mid-stream is
deferred by its *own* tag-kind's pass — that pass stops at the frame, emits
nothing further, and leaves the state (in particular the buffer) untouched.
The original claim's stronger guarantee — that no processing step before
end-of-stream removes the frame — fails, because the other kind's pass may
consume past it (see the counterexample). -/
theorem claim_C2 (st : DemuxState) (p n : Nat)
    (h1 : indexOfFrom MSG_TOOL st.rawBuffer 0 = some p)
    (h2 : findNextMessageStart st.rawBuffer p = some n)
    (h3 : toolTryBody st (extractMessageContent st.rawBuffer p).1 = .error ()) :
    processMessagesTop MSG_TOOL processToolMessage false st = (st, []) := by
  unfold processMessagesTop
  rw [processMessages]
  simp only [h1]
  rw [extractMessageContent_snd, h2]
  rw [processToolMessage_error_feed st _ h3]
  simp

/-- C2 (witness): the amended deferral theorem applied to the concrete loss
buffer. -/
theorem claim_C2_witness :
    processMessagesTop MSG_TOOL processToolMessage false ⟨[], lossChunk, []⟩
      = (⟨[], lossChunk, []⟩, []) :=
  claim_C2 ⟨[], lossChunk, []⟩ 0 7 (by decide) (by decide) (by rfl)

/-- C3 (counterexample): `dedupLossInput` contains two complete tool frames
with identical `tool_name` and `additional_kwargs` (bodies equal to
`toolPayloadT`, decodable), yet the session emits zero tool events — an
undecodable tool frame defers the Tool pass and the Toly pass then consumes
past all tool frames.  "Exactly one" fails; only "at most one" holds. -/
theorem claim_C3_counterexample :
    toolKeys (streamSession [dedupLossInput]) = [] ∧
      matchesAt MSG_TOOL dedupLossInput 7 ∧
      matchesAt MSG_TOOL dedupLossInput 53 ∧
      (extractMessageContent dedupLossInput 7).1 = toolPayloadT ∧
      (extractMessageContent dedupLossInput 7).2 = some 53 ∧
      (extractMessageContent dedupLossInput 53).1 = toolPayloadT ∧
      (extractMessageContent dedupLossInput 53).2 = some 99 ∧
      (∃ r, toolTryBody initialState toolPayloadT = .ok r) :=
  ⟨by decide, by decide, by decide, by decide, by decide, by decide, by decide, ⟨_, by rfl⟩⟩

/-- C3 (amended): at most one tool event per dedup key — in any session run,
the keys of the emitted tool events are pairwise distinct; once a key is
recorded and its event emitted, no later frame deriving the same key produces
a second tool event. -/
theorem claim_C3 : ∀ chunks : List (List Char), (toolKeys (streamSession chunks)).Nodup := by
  intro chunks
  have hfeed := feedAll_step (fun a b evs => DedupStep a.1 b.1 evs)
    (fun _ => DedupStep_refl _)
    (fun _ _ _ _ _ h1 h2 => DedupStep_trans h1 h2)
    (fun st content isEnd => processToolMessage_dedup st content isEnd)
    (fun st content isEnd => processTolyMessage_dedup st content isEnd)
    chunks initialState
  have hend := processBufferedData_step (fun a b evs => DedupStep a.1 b.1 evs)
    (fun _ => DedupStep_refl _)
    (fun _ _ _ _ _ h1 h2 => DedupStep_trans h1 h2)
    (fun st content isEnd => processToolMessage_dedup st content isEnd)
    (fun st content isEnd => processTolyMessage_dedup st content isEnd)
    (feedAll initialState chunks).1 true
  have hcomb := DedupStep_trans hfeed hend
  have hkeys : toolKeys (streamSession chunks)
      = toolKeys ((feedAll initialState chunks).2
          ++ (processBufferedData (feedAll initialState chunks).1 true).2) := by
    simp only [streamSession, onEndStream, toolKeys_append, toolKeys_complete_singleton,
      List.append_nil]
  rw [hkeys]
  exact hcomb.1

/-- C4: every run that reaches end-of-stream emits exactly one terminal
content event, as its last event, and its text is the concatenation (in
emission order) of all emitted delta texts. -/
theorem claim_C4 : ∀ chunks : List (List Char), ∃ evs : List ChatEvent,
    streamSession chunks = evs ++ [ChatEvent.complete ((deltaTexts evs).flatten)] ∧
      ∀ e ∈ evs, isCompleteEvt e = false := by
  intro chunks
  have hTr : ∀ (a b c : List (List Char) × List Char) (e1 e2 : List ChatEvent),
      (b.2 = a.2 ++ (deltaTexts e1).flatten ∧ ∀ e ∈ e1, isCompleteEvt e = false) →
      (c.2 = b.2 ++ (deltaTexts e2).flatten ∧ ∀ e ∈ e2, isCompleteEvt e = false) →
      (c.2 = a.2 ++ (deltaTexts (e1 ++ e2)).flatten ∧
        ∀ e ∈ e1 ++ e2, isCompleteEvt e = false) := by
    rintro a b c e1 e2 ⟨hb, hbe⟩ ⟨hc, hce⟩
    constructor
    · rw [hc, hb, deltaTexts_append, List.flatten_append, List.append_assoc]
    · intro e he
      rcases List.mem_append.mp he with he | he
      exacts [hbe e he, hce e he]
  have hfeed := feedAll_step
    (fun a b evs => b.2 = a.2 ++ (deltaTexts evs).flatten ∧ ∀ e ∈ evs, isCompleteEvt e = false)
    (fun _ => ⟨by simp [deltaTexts_nil], by simp⟩) hTr
    (fun st c e => processToolMessage_trans st c e)
    (fun st c e => processTolyMessage_trans st c e)
    chunks initialState
  have hend := processBufferedData_step
    (fun a b evs => b.2 = a.2 ++ (deltaTexts evs).flatten ∧ ∀ e ∈ evs, isCompleteEvt e = false)
    (fun _ => ⟨by simp [deltaTexts_nil], by simp⟩) hTr
    (fun st c e => processToolMessage_trans st c e)
    (fun st c e => processTolyMessage_trans st c e)
    (feedAll initialState chunks).1 true
  have hcomb := hTr _ _ _ _ _ hfeed hend
  refine ⟨(feedAll initialState chunks).2
    ++ (processBufferedData (feedAll initialState chunks).1 true).2, ?_, hcomb.2⟩
  have hsess : streamSession chunks =
      ((feedAll initialState chunks).2
          ++ (processBufferedData (feedAll initialState chunks).1 true).2)
        ++ [ChatEvent.complete
          ((processBufferedData (feedAll initialState chunks).1 true).1.streamedContent)] := by
    simp only [streamSession, onEndStream]
    rw [List.append_assoc]
  rw [hsess]
  have htxt : (processBufferedData (feedAll initialState chunks).1 true).1.streamedContent
      = (deltaTexts ((feedAll initialState chunks).2
          ++ (processBufferedData (feedAll initialState chunks).1 true).2)).flatten := by
    have h := hcomb.1
    simpa [stProj, initialState] using h
  rw [htxt]

/-- C5: in every drain pass, Tool-kind processing runs to exhaustion first,
so the pass's event sequence is the Tool-phase events (all tool events)
followed by the Toly-phase events (all delta events): every tool event of the
window precedes every model-text delta of the window. -/
theorem claim_C5 : ∀ (st : DemuxState) (isEnd : Bool),
    (processBufferedData st isEnd).2
        = (processMessagesTop MSG_TOOL processToolMessage isEnd st).2
          ++ (processMessagesTop MSG_TOLY processTolyMessage isEnd
            (processMessagesTop MSG_TOOL processToolMessage isEnd st).1).2 ∧
      (∀ e ∈ (processMessagesTop MSG_TOOL processToolMessage isEnd st).2, isToolEvt e = true) ∧
      (∀ e ∈ (processMessagesTop MSG_TOLY processTolyMessage isEnd
          (processMessagesTop MSG_TOOL processToolMessage isEnd st).1).2, isDeltaEvt e = true) := by
  intro st isEnd
  refine ⟨rfl, ?_, ?_⟩
  · exact processMessages_step (fun _ _ evs => ∀ e ∈ evs, isToolEvt e = true)
      (fun _ => by simp)
      (fun _ _ _ e1 e2 h1 h2 e he => by
        rcases List.mem_append.mp he with h | h
        exacts [h1 e h, h2 e h])
      processToolMessage (fun s c e => processToolMessage_only_tool s c e) MSG_TOOL isEnd _ st
  · exact processMessages_step (fun _ _ evs => ∀ e ∈ evs, isDeltaEvt e = true)
      (fun _ => by simp)
      (fun _ _ _ e1 e2 h1 h2 e he => by
        rcases List.mem_append.mp he with h | h
        exacts [h1 e h, h2 e h])
      processTolyMessage (fun s c e => processTolyMessage_only_delta s c e) MSG_TOLY isEnd _ _

/-- C6: a truncated trailing frame (tag present, no tag after it, body
undecodable) does not block end-of-stream: the final lenient pass consumes it
without emitting anything for it, the buffer is emptied (so the frame is
dropped, not retried), and the session still completes with exactly the
terminal content event carrying the accumulated transcript.  Stated for a
trailing Tool frame and for a trailing Toly frame. -/
theorem claim_C6 :
    (∀ (st : DemuxState) (p : Nat),
        indexOfFrom MSG_TOOL st.rawBuffer 0 = some p →
        findNextMessageStart st.rawBuffer p = none →
        toolTryBody st (extractMessageContent st.rawBuffer p).1 = .error () →
        onEndStream st = ({ st with rawBuffer := [] }, [ChatEvent.complete st.streamedContent])) ∧
      (∀ (st : DemuxState) (p : Nat),
        indexOfFrom MSG_TOOL st.rawBuffer 0 = none →
        indexOfFrom MSG_TOLY st.rawBuffer 0 = some p →
        findNextMessageStart st.rawBuffer p = none →
        tolyTryBody st (extractMessageContent st.rawBuffer p).1 = .error () →
        onEndStream st = ({ st with rawBuffer := [] }, [ChatEvent.complete st.streamedContent])) := by
  constructor
  · intro st p h1 h2 h3
    have hTool := processMessagesTop_trailing_drop MSG_TOOL processToolMessage st p
      (processToolMessage_error_end st _ h3) h1 h2 MSG_TOOL_ne_nil
    have hPB : processBufferedData st true = ({ st with rawBuffer := [] }, []) := by
      simp only [processBufferedData, hTool]
      rw [processMessagesTop_no_ident MSG_TOLY processTolyMessage true _
        (indexOfFrom_nil MSG_TOLY MSG_TOLY_ne_nil 0)]
      rfl
    simp only [onEndStream, hPB]
    rfl
  · intro st p h0 h1 h2 h3
    have hToolPass : processMessagesTop MSG_TOOL processToolMessage true st = (st, []) :=
      processMessagesTop_no_ident _ _ _ _ h0
    have hToly := processMessagesTop_trailing_drop MSG_TOLY processTolyMessage st p
      (processTolyMessage_error_end st _ h3) h1 h2 MSG_TOLY_ne_nil
    have hPB : processBufferedData st true = ({ st with rawBuffer := [] }, []) := by
      simp only [processBufferedData, hToolPass, hToly]
      rfl
    simp only [onEndStream, hPB]
    rfl

/-- C6 (witness): the lenient-flush theorem at two concrete truncated
buffers. -/
theorem claim_C6_witness :
    onEndStream ⟨("Hi").data, MSG_TOOL ++ ("x").data, []⟩
        = (⟨("Hi").data, [], []⟩, [ChatEvent.complete (("Hi").data)]) ∧
      onEndStream ⟨("Yo").data, MSG_TOLY ++ ("y").data, []⟩
        = (⟨("Yo").data, [], []⟩, [ChatEvent.complete (("Yo").data)]) :=
  ⟨claim_C6.1 _ 0 (by decide) (by decide) (by rfl),
    claim_C6.2 _ 0 (by decide) (by decide) (by decide) (by rfl)⟩

/-- C7 (counterexample): the body `null` decodes successfully as JSON, yet the
Model-Token Processor returns the defer outcome mid-stream — the property
access `parsedData.event` throws on the `null` value and the catch block
returns `false` — so `Emitted` is not guaranteed by successful decode alone. -/
theorem claim_C7_counterexample :
    parseJson (("null").data) = some Json.null ∧
      processTolyMessage initialState (("null").data) false = (false, initialState, []) :=
  ⟨by rfl, by rfl⟩

/-- C7 (amended): the Model-Token Processor returns `Emitted` for every body
that decodes successfully *and* whose subsequent property accesses do not
throw: the decoded value is not `null`, and if the event/node filter matches,
its `data` field is present and not `null`.  Outcome is then `Emitted`
regardless of whether the filter matched; mid-stream deferral arises when the
decode fails or when one of those accesses throws. -/
theorem claim_C7 (st : DemuxState) (content : List Char) (isEnd : Bool) (v : Json)
    (hp : parseJson content = some v)
    (hnn : v ≠ Json.null)
    (hdata : tolyFilterMatches v = true →
      ∃ dv, fieldOf v dataLit = some dv ∧ dv ≠ Json.null) :
    (processTolyMessage st content isEnd).1 = true := by
  have hok : ∃ r, tolyTryBody st content = .ok r := by
    unfold tolyTryBody
    rw [hp]
    cases v with
    | null => exact absurd rfl hnn
    | bool b => exact ⟨_, rfl⟩
    | num tok => exact ⟨_, rfl⟩
    | str s => exact ⟨_, rfl⟩
    | arr xs => exact ⟨_, rfl⟩
    | obj fs =>
      dsimp only
      by_cases hf : tolyFilterMatches (Json.obj fs) = true
      · rw [if_pos hf]
        obtain ⟨dv, hdv, hdnn⟩ := hdata hf
        rw [hdv]
        cases dv with
        | null => exact absurd rfl hdnn
        | bool b =>
          dsimp only
          by_cases ht : truthy (optChain (fieldOf (Json.bool b) chunkLit) contentLit) = true
          · rw [if_pos ht]; exact ⟨_, rfl⟩
          · rw [if_neg ht]; exact ⟨_, rfl⟩
        | num tok =>
          dsimp only
          by_cases ht : truthy (optChain (fieldOf (Json.num tok) chunkLit) contentLit) = true
          · rw [if_pos ht]; exact ⟨_, rfl⟩
          · rw [if_neg ht]; exact ⟨_, rfl⟩
        | str s =>
          dsimp only
          by_cases ht : truthy (optChain (fieldOf (Json.str s) chunkLit) contentLit) = true
          · rw [if_pos ht]; exact ⟨_, rfl⟩
          · rw [if_neg ht]; exact ⟨_, rfl⟩
        | arr xs =>
          dsimp only
          by_cases ht : truthy (optChain (fieldOf (Json.arr xs) chunkLit) contentLit) = true
          · rw [if_pos ht]; exact ⟨_, rfl⟩
          · rw [if_neg ht]; exact ⟨_, rfl⟩
        | obj gs =>
          dsimp only
          by_cases ht : truthy (optChain (fieldOf (Json.obj gs) chunkLit) contentLit) = true
          · rw [if_pos ht]; exact ⟨_, rfl⟩
          · rw [if_neg ht]; exact ⟨_, rfl⟩
      · rw [if_neg hf]
        exact ⟨_, rfl⟩
  obtain ⟨r, hr⟩ := hok
  simp [processTolyMessage, hr]

/-- C7 (witness): the amended theorem at a decodable non-matching body. -/
theorem claim_C7_witness :
    (processTolyMessage initialState (("\x7b\x7d").data) false).1 = true :=
  claim_C7 initialState _ false (Json.obj []) (by rfl) (fun h => Json.noConfusion h)
    (fun h => absurd h (by decide))

/-- C8 (counterexample): with `Tool :` at offset 0 and `Toly :` at offset 6,
the scanner called at `p = 0` returns offset 6, which is *not* strictly after
`p + tag_length = 6`; the claim as stated predicts a not-found result on this
buffer. -/
theorem claim_C8_counterexample :
    findNextMessageStart (MSG_TOOL ++ MSG_TOLY) 0 = some 6 ∧ ¬(0 + IDENTIFIER_LENGTH < 6) :=
  ⟨by decide, by decide⟩

/-- C8 (amended): the scanner returns the earliest occurrence of either tag
literal at an offset at least `p + tag_length` — strictly after the last byte
of the consumed tag, immediate adjacency included — the earliest wins when
both literals occur, and it returns not-found exactly when neither literal
occurs at any such offset.  It is a pure function of the buffer (no side
effects by construction). -/
theorem claim_C8 (buf : List Char) (p : Nat) :
    (∀ j, findNextMessageStart buf p = some j →
        p + IDENTIFIER_LENGTH ≤ j ∧ tagOccursAt buf j ∧
          ∀ m, p + IDENTIFIER_LENGTH ≤ m → tagOccursAt buf m → j ≤ m) ∧
      (findNextMessageStart buf p = none →
        ∀ m, p + IDENTIFIER_LENGTH ≤ m → ¬tagOccursAt buf m) :=
  ⟨fun _ h => findNextMessageStart_some_spec h, fun h => findNextMessageStart_none_spec h⟩

/-- C8 (witness): the characterisation applied at offset 0 of the
counterexample buffer. -/
theorem claim_C8_witness :
    0 + IDENTIFIER_LENGTH ≤ 6 ∧ tagOccursAt (MSG_TOOL ++ MSG_TOLY) 6 ∧ 6 ≤ 6 := by
  have h := (claim_C8 (MSG_TOOL ++ MSG_TOLY) 0).1 6 (by decide)
  exact ⟨h.1, h.2.1, h.2.2 6 (by decide) (by decide)⟩

/-- C9: frame conditions of the two processors — processing a Tool frame
never modifies the transcript, and processing a Toly frame never modifies the
tool dedup set, for every body and both values of the final-flush flag. -/
theorem claim_C9 : ∀ (st : DemuxState) (content : List Char) (isEnd : Bool),
    (processToolMessage st content isEnd).2.1.streamedContent = st.streamedContent ∧
      (processTolyMessage st content isEnd).2.1.processedTools = st.processedTools := by
  intro st content isEnd
  constructor
  · unfold processToolMessage
    rcases h : toolTryBody st content with e | r
    · simp only [h]
      split <;> rfl
    · simp only [h]
  · unfold processTolyMessage
    rcases h : tolyTryBody st content with e | r
    · simp only [h]
      split <;> rfl
    · simp only [h]

/-- C10: determinism.  In this embedding one session is the pure function
`streamSession` of the delivered chunk sequence: the buffer, dedup set and
transcript are created fresh at subscription (src lines 346–353) and no other
state flows into the computation, so two runs over the same chunk sequence
emit identical event sequences and identical final transcripts. -/
theorem claim_C10 (chunks chunks' : List (List Char)) (h : chunks = chunks') :
    streamSession chunks = streamSession chunks' ∧
      (onEndStream (feedAll initialState chunks).1).1.streamedContent
        = (onEndStream (feedAll initialState chunks').1).1.streamedContent := by
  subst h
  exact ⟨rfl, rfl⟩

/-- C10 (witness): determinism applied at a concrete chunk sequence. -/
theorem claim_C10_witness :
    streamSession [fragChunk2] = streamSession [fragChunk2] ∧
      (onEndStream (feedAll initialState [fragChunk2]).1).1.streamedContent
        = (onEndStream (feedAll initialState [fragChunk2]).1).1.streamedContent :=
  claim_C10 [fragChunk2] [fragChunk2] rfl

end CatolyDemux
